import Mathlib

/-!
Verification of the repository layer of the next_blog backend
(src/backend/src/repositories.rs, repositories/blog.rs, repositories/tag.rs).

The Rust code is shallowly embedded:
* i32 identifiers become Int (no arithmetic near the overflow boundary occurs
  in any claim, all operations are comparisons and successor).
* fallible code returns Option; a Rust panic (unwrap of None) is the value
  none, and at the repository-operation level the constructor RepoResult.trap.
* the Postgres-backed stores are modelled by an explicit DbState holding the
  three tables; each SQL statement becomes a function on DbState.  The sqlx
  queries in the source are executed on the connection pool (every statement
  binds the pool, not the transaction object obtained from begin), so every
  statement is modelled as immediately committed and begin/commit are no-ops.
* std HashMap is modelled as an association list in insertion order; insert
  replaces an existing key in place, otherwise appends.  The iteration order
  of a real HashMap is unspecified, so values() is modelled by a predicate
  accepting every permutation of the stored entries.
-/

namespace NextBlog

/-- Tag record, repositories/tag.rs. -/
structure Tag where
  id : Int
  name : String
deriving DecidableEq

/-- Flat join row, repositories/blog.rs (BlogWithTagFromRow). -/
structure BlogWithTagFromRow where
  id : Int
  title : String
  body : String
  label_id : Option Int
  tag_name : Option String
deriving DecidableEq

/-- Hydrated post, repositories/blog.rs (BlogEntity). -/
structure BlogEntity where
  id : Int
  title : String
  body : String
  tags : List Tag
deriving DecidableEq

/-- Post row of the blogs table, repositories/blog.rs (BlogFromRow). -/
structure BlogFromRow where
  id : Int
  title : String
  body : String
deriving DecidableEq

/-- Creation payload, repositories/blog.rs (CreateBlog). -/
structure CreateBlog where
  title : String
  body : String
  tags : List Int
deriving DecidableEq

/-- Update payload, repositories/blog.rs (UpdateBlog). -/
structure UpdateBlog where
  title : Option String
  body : Option String
  tags : Option (List Int)
deriving DecidableEq

/-- Error taxonomy, repositories.rs (RepositoryError). -/
inductive RepositoryError where
  | Unexpected : String → RepositoryError
  | NotFound : Int → RepositoryError
  | Duplicate : Int → RepositoryError
deriving DecidableEq

/-- Result of one repository operation: success, a returned error, or a
Rust panic (trap). -/
inductive RepoResult (α : Type) where
  | ok : α → RepoResult α
  | err : RepositoryError → RepoResult α
  | trap : RepoResult α
deriving DecidableEq

/-! ## The fold algorithm (fold_entities, repositories/blog.rs lines 82 to 109) -/

/-- The Tag the fold builds from the tag fields of a row.  The source unwraps
label_id and then tag_name, so the result is none (a panic) exactly when
either field is null. -/
def tagOfRow (r : BlogWithTagFromRow) : Option Tag :=
  match r.label_id, r.tag_name with
  | some i, some n => some ⟨i, n⟩
  | _, _ => none

/-- Whether the accumulator already holds an entry for this post id
(the inner while loop condition blog.id == row.id). -/
def hasId (accum : List BlogEntity) (i : Int) : Bool :=
  accum.any (fun b => b.id == i)

/-- Push a tag onto the first accumulator entry with the given id, exactly as
the inner while loop of fold_entities does. -/
def attachFirst (accum : List BlogEntity) (i : Int) (t : Tag) : List BlogEntity :=
  match accum with
  | [] => []
  | b :: bs =>
    if b.id == i then { b with tags := b.tags ++ [t] } :: bs
    else b :: attachFirst bs i t

/-- One iteration of the outer loop of fold_entities on one row.  On a match
the source unconditionally unwraps both tag fields; on a fresh id it builds a
one-element tag list when label_id is non-null (unwrapping tag_name), and an
empty one otherwise. -/
def foldStep (accum : List BlogEntity) (r : BlogWithTagFromRow) : Option (List BlogEntity) :=
  if hasId accum r.id then
    (tagOfRow r).map (fun t => attachFirst accum r.id t)
  else
    if r.label_id.isSome then
      (tagOfRow r).map (fun t => accum ++ [⟨r.id, r.title, r.body, [t]⟩])
    else
      some (accum ++ [⟨r.id, r.title, r.body, []⟩])

/-- The outer loop of fold_entities. -/
def foldAux (accum : List BlogEntity) : List BlogWithTagFromRow → Option (List BlogEntity)
  | [] => some accum
  | r :: rs =>
    match foldStep accum r with
    | none => none
    | some accum2 => foldAux accum2 rs

/-- fold_entities, repositories/blog.rs.  none models a panic. -/
def fold_entities (rows : List BlogWithTagFromRow) : Option (List BlogEntity) :=
  foldAux [] rows

/-- Recursion worker for fold_spec; the fuel argument makes the recursion
structural, and is always at least the length of the list. -/
def foldSpecAux : Nat → List BlogWithTagFromRow → List BlogEntity
  | 0, _ => []
  | _, [] => []
  | n + 1, r :: rs =>
    { id := r.id, title := r.title, body := r.body,
      tags := (r :: rs.filter (fun x => x.id == r.id)).filterMap tagOfRow } ::
    foldSpecAux n (rs.filter (fun x => x.id != r.id))

/-- Modelled from the spec (section 8, fold correctness): one Post per
distinct post id in first-seen order, fields from the first row of the id,
tag sequence built from the non-null tag field pairs of the rows of that id
in the order they appeared. -/
def fold_spec (rows : List BlogWithTagFromRow) : List BlogEntity :=
  foldSpecAux rows.length rows

/-- Membership test on a list of already-seen ids. -/
def seenHas (seen : List Int) (i : Int) : Bool :=
  seen.any (fun x => x == i)

/-- Well-formed row sequences relative to a list of already-seen post ids:
each row has its two tag fields both null or both non-null, and a row whose
id was already seen has non-null tag fields.  Every result set of the left
outer join queries in the source satisfies this. -/
def wfFrom (seen : List Int) : List BlogWithTagFromRow → Bool
  | [] => true
  | r :: rs =>
    (r.label_id.isSome == r.tag_name.isSome)
      && (!(seenHas seen r.id) || r.label_id.isSome)
      && wfFrom (r.id :: seen) rs

/-- Recursion worker for firstDedup, fueled like foldSpecAux. -/
def firstDedupAux : Nat → List Int → List Int
  | 0, _ => []
  | _, [] => []
  | n + 1, x :: xs => x :: firstDedupAux n (xs.filter (fun y => y != x))

/-- First-occurrence deduplication of a list of ids. -/
def firstDedup (l : List Int) : List Int :=
  firstDedupAux l.length l

/-- Tags of the rows of one post merged into an accumulator entry, used to
state what foldAux does to entries that already exist. -/
def augment (accum : List BlogEntity) (rows : List BlogWithTagFromRow) : List BlogEntity :=
  accum.map (fun b =>
    { b with tags := b.tags ++ (rows.filter (fun r => r.id == b.id)).filterMap tagOfRow })

/-! ## Sorting relations used to model the order by clauses -/

/-- Ascending id order on tags (order by tags.id asc). -/
def tagLe (a b : Tag) : Prop := a.id ≤ b.id

instance : DecidableRel tagLe := fun a b => inferInstanceAs (Decidable (a.id ≤ b.id))

instance : IsTotal Tag tagLe := ⟨fun a b => Int.le_total a.id b.id⟩

instance : IsTrans Tag tagLe := ⟨fun _ _ _ h1 h2 => le_trans h1 h2⟩

/-- Descending id order on post rows (order by blogs.id desc). -/
def blogGe (a b : BlogFromRow) : Prop := b.id ≤ a.id

instance : DecidableRel blogGe := fun a b => inferInstanceAs (Decidable (b.id ≤ a.id))

instance : IsTotal BlogFromRow blogGe := ⟨fun a b => Int.le_total b.id a.id⟩

instance : IsTrans BlogFromRow blogGe := ⟨fun _ _ _ h1 h2 => le_trans h2 h1⟩

def sortTagsAsc (tags : List Tag) : List Tag := List.insertionSort tagLe tags

def sortBlogsDesc (blogs : List BlogFromRow) : List BlogFromRow :=
  List.insertionSort blogGe blogs

/-- Concatenation of the images of a list-valued function (the shape of a
join producing a group of rows per left row). -/
def joinMap (f : α → List β) : List α → List β
  | [] => []
  | x :: xs => f x ++ joinMap f xs

/-! ## The database-backed stores.

All statements of the source execute on the connection pool (each query binds
&self.pool), not on the transaction handle returned by begin, so every
statement is modelled as immediately visible and begin/commit do nothing. -/

/-- State of the three tables.  nextBlogId and nextTagId model the id
sequences of the two serial primary keys. -/
structure DbState where
  blogs : List BlogFromRow
  tags : List Tag
  blog_tags : List (Int × Int)
  nextBlogId : Int
  nextTagId : Int
deriving DecidableEq

/-- The rows the left outer join produces for one post row: one row per
association of the post (tag fields null when the joined tag is absent), or
a single all-null row when the post has no associations. -/
def rowsForBlog (st : DbState) (b : BlogFromRow) : List BlogWithTagFromRow :=
  let bts := st.blog_tags.filter (fun p => p.1 == b.id)
  if bts.isEmpty then [⟨b.id, b.title, b.body, none, none⟩]
  else
    bts.map (fun p =>
      match st.tags.find? (fun t => t.id == p.2) with
      | some t => ⟨b.id, b.title, b.body, some t.id, some t.name⟩
      | none => ⟨b.id, b.title, b.body, none, none⟩)

/-- Result set of the find query (where blogs.id equals the argument). -/
def findRows (st : DbState) (i : Int) : List BlogWithTagFromRow :=
  joinMap (rowsForBlog st) (st.blogs.filter (fun b => b.id == i))

/-- Result set of the all query (order by blogs.id desc). -/
def allQuery (st : DbState) : List BlogWithTagFromRow :=
  joinMap (rowsForBlog st) (sortBlogsDesc st.blogs)

/-- Statement: insert into blogs returning the fresh row. -/
def insertBlog (st : DbState) (title body : String) : DbState × BlogFromRow :=
  let row : BlogFromRow := ⟨st.nextBlogId, title, body⟩
  ({ st with blogs := st.blogs ++ [row], nextBlogId := st.nextBlogId + 1 }, row)

/-- Statement: insert into blog_tags one row per supplied tag id.  The two
foreign keys make the whole statement fail when the post row or any
referenced tag is absent, inserting nothing. -/
def insertBlogTags (st : DbState) (blogId : Int) (tagIds : List Int) :
    Except RepositoryError DbState :=
  if st.blogs.any (fun b => b.id == blogId)
      && tagIds.all (fun i => st.tags.any (fun t => t.id == i)) then
    Except.ok { st with blog_tags := st.blog_tags ++ tagIds.map (fun i => (blogId, i)) }
  else
    Except.error (RepositoryError.Unexpected "foreign key violation")

/-- Statement: update blogs set title, body where id, fetched with fetch_one
so a missing row surfaces as an error. -/
def updateBlogRowStmt (st : DbState) (i : Int) (title body : String) :
    Except RepositoryError DbState :=
  if st.blogs.any (fun b => b.id == i) then
    Except.ok { st with
      blogs := st.blogs.map (fun b => if b.id == i then ⟨i, title, body⟩ else b) }
  else
    Except.error (RepositoryError.Unexpected "RowNotFound")

/-- Statement: delete from blog_tags where blog_id.  Deleting zero rows is a
success. -/
def deleteBlogTags (st : DbState) (i : Int) : DbState :=
  { st with blog_tags := st.blog_tags.filter (fun p => p.1 != i) }

/-- BlogRepositoryForDb.find: fetch the join rows, fold them, first entity or
NotFound when the result set is empty. -/
def dbFind (st : DbState) (i : Int) : RepoResult BlogEntity :=
  match fold_entities (findRows st i) with
  | none => RepoResult.trap
  | some blogs =>
    match blogs.head? with
    | some b => RepoResult.ok b
    | none => RepoResult.err (RepositoryError.NotFound i)

/-- BlogRepositoryForDb.all: fold the full ordered result set. -/
def dbAll (st : DbState) : RepoResult (List BlogEntity) :=
  match fold_entities (allQuery st) with
  | none => RepoResult.trap
  | some blogs => RepoResult.ok blogs

/-- BlogRepositoryForDb.create: insert the post row, insert the association
rows, then find.  Both statements run on the pool, so the post row stays
committed when the association insert fails. -/
def dbCreate (st : DbState) (payload : CreateBlog) : DbState × RepoResult BlogEntity :=
  let res := insertBlog st payload.title payload.body
  match insertBlogTags res.1 res.2.id payload.tags with
  | Except.error e => (res.1, RepoResult.err e)
  | Except.ok st2 => (st2, dbFind st2 res.2.id)

/-- BlogRepositoryForDb.update: find (NotFound when absent), update the post
row filling omitted fields from the old post, and when tags is present delete
all associations and insert the new ones, each statement on the pool;
finally find again. -/
def dbUpdate (st : DbState) (i : Int) (payload : UpdateBlog) :
    DbState × RepoResult BlogEntity :=
  match dbFind st i with
  | RepoResult.err e => (st, RepoResult.err e)
  | RepoResult.trap => (st, RepoResult.trap)
  | RepoResult.ok old =>
    match updateBlogRowStmt st i (payload.title.getD old.title) (payload.body.getD old.body) with
    | Except.error e => (st, RepoResult.err e)
    | Except.ok st1 =>
      match payload.tags with
      | none => (st1, dbFind st1 i)
      | some tagIds =>
        let st2 := deleteBlogTags st1 i
        match insertBlogTags st2 i tagIds with
        | Except.error e => (st2, RepoResult.err e)
        | Except.ok st3 => (st3, dbFind st3 i)

/-- BlogRepositoryForDb.delete: delete associations then the post row.  Both
are execute statements, which report zero affected rows as success, so the
operation never returns NotFound. -/
def dbDelete (st : DbState) (i : Int) : DbState × RepoResult Unit :=
  let st1 := deleteBlogTags st i
  let st2 := { st1 with blogs := st1.blogs.filter (fun b => b.id != i) }
  (st2, RepoResult.ok ())

/-- TagRepositoryForDb.create: select by name first, Duplicate when a tag
with the name exists, otherwise insert with a fresh id. -/
def dbTagCreate (st : DbState) (name : String) : DbState × RepoResult Tag :=
  match st.tags.find? (fun t => t.name == name) with
  | some tag => (st, RepoResult.err (RepositoryError.Duplicate tag.id))
  | none =>
    let t : Tag := ⟨st.nextTagId, name⟩
    ({ st with tags := st.tags ++ [t], nextTagId := st.nextTagId + 1 }, RepoResult.ok t)

/-- TagRepositoryForDb.all: select ordered by tags.id asc; fetch_all never
reports a missing row. -/
def dbTagAll (st : DbState) : RepoResult (List Tag) :=
  RepoResult.ok (sortTagsAsc st.tags)

/-- TagRepositoryForDb.delete: a single execute statement, zero affected rows
is a success, so it never returns NotFound.  Modelled from the spec
(section 6): the join table carries a foreign key with cascade delete from
the tags table, which is in the schema outside src, so deleting a tag also
removes the associations referencing it. -/
def dbTagDelete (st : DbState) (i : Int) : DbState × RepoResult Unit :=
  ({ st with tags := st.tags.filter (fun t => t.id != i),
             blog_tags := st.blog_tags.filter (fun p => p.2 != i) },
   RepoResult.ok ())

/-! ## The in-memory stores (test_utils modules).

A std HashMap is modelled as an association list in insertion order: insert
replaces an existing key in place and appends a fresh one; len, get and
remove are order-independent.  Iteration order of the real map is
unspecified, so values() is modelled by the predicate that accepts every
permutation of the stored entries. -/

def hmInsert (store : List (Int × α)) (k : Int) (v : α) : List (Int × α) :=
  if store.any (fun p => p.1 == k) then
    store.map (fun p => if p.1 == k then (k, v) else p)
  else store ++ [(k, v)]

def hmGet (store : List (Int × α)) (k : Int) : Option α :=
  (store.find? (fun p => p.1 == k)).map (fun p => p.2)

def hmRemove (store : List (Int × α)) (k : Int) : List (Int × α) :=
  store.filter (fun p => p.1 != k)

def hmValues (store : List (Int × α)) : List α :=
  store.map (fun p => p.2)

/-- BlogRepositoryForMemory: the fixed tag list given to new and the shared
store. -/
structure BlogRepositoryForMemory where
  tags : List Tag
  store : List (Int × BlogEntity)
deriving DecidableEq

/-- One find call on the single shared iterator: consume elements up to and
including the first tag with the wanted id, none when the iterator runs out. -/
def findConsume (i : Int) : List Tag → Option (Tag × List Tag)
  | [] => none
  | t :: ts => if t.id == i then some (t, ts) else findConsume i ts

/-- The map over payload tag ids, each lookup continuing on what is left of
the one iterator created before the loop; unwrap of a failed lookup is a
panic, modelled as none. -/
def resolveAux : List Tag → List Int → Option (List Tag)
  | _, [] => some []
  | avail, i :: is =>
    match findConsume i avail with
    | none => none
    | some x => (resolveAux x.2 is).map (fun l => x.1 :: l)

/-- BlogRepositoryForMemory.resolve_tags. -/
def resolve_tags (tags : List Tag) (ids : List Int) : Option (List Tag) :=
  resolveAux tags ids

/-- BlogRepositoryForMemory.create: id is the store size plus one, tag ids
are resolved (a failed lookup panics before anything is stored), then the
entity is inserted, replacing any record already stored under that id. -/
def memBlogCreate (repo : BlogRepositoryForMemory) (payload : CreateBlog) :
    BlogRepositoryForMemory × RepoResult BlogEntity :=
  let id : Int := Int.ofNat repo.store.length + 1
  match resolve_tags repo.tags payload.tags with
  | none => (repo, RepoResult.trap)
  | some tags =>
    let blog : BlogEntity := ⟨id, payload.title, payload.body, tags⟩
    ({ repo with store := hmInsert repo.store id blog }, RepoResult.ok blog)

/-- BlogRepositoryForMemory.find. -/
def memBlogFind (repo : BlogRepositoryForMemory) (i : Int) : RepoResult BlogEntity :=
  match hmGet repo.store i with
  | some blog => RepoResult.ok blog
  | none => RepoResult.err (RepositoryError.NotFound i)

/-- The outputs BlogRepositoryForMemory.all may produce: the stored entities
in some iteration order of the map. -/
def memBlogAllPossible (repo : BlogRepositoryForMemory) (out : List BlogEntity) : Prop :=
  out.Perm (hmValues repo.store)

/-- BlogRepositoryForMemory.update: NotFound when the id is absent, omitted
fields filled from the stored entity, tag ids resolved through the shared
iterator when present, and the rebuilt entity stored under the same id. -/
def memBlogUpdate (repo : BlogRepositoryForMemory) (i : Int) (payload : UpdateBlog) :
    BlogRepositoryForMemory × RepoResult BlogEntity :=
  match hmGet repo.store i with
  | none => (repo, RepoResult.err (RepositoryError.NotFound i))
  | some blog =>
    let title := payload.title.getD blog.title
    let body := payload.body.getD blog.body
    match payload.tags with
    | none =>
      let b : BlogEntity := ⟨i, title, body, blog.tags⟩
      ({ repo with store := hmInsert repo.store i b }, RepoResult.ok b)
    | some tagIds =>
      match resolve_tags repo.tags tagIds with
      | none => (repo, RepoResult.trap)
      | some tags =>
        let b : BlogEntity := ⟨i, title, body, tags⟩
        ({ repo with store := hmInsert repo.store i b }, RepoResult.ok b)

/-- BlogRepositoryForMemory.delete. -/
def memBlogDelete (repo : BlogRepositoryForMemory) (i : Int) :
    BlogRepositoryForMemory × RepoResult Unit :=
  match hmGet repo.store i with
  | none => (repo, RepoResult.err (RepositoryError.NotFound i))
  | some _ => ({ repo with store := hmRemove repo.store i }, RepoResult.ok ())

/-- TagRepositoryForMemory.create: when some stored tag has the name, return
it unchanged; otherwise insert with id equal to the store size plus one. -/
def memTagCreate (store : List (Int × Tag)) (name : String) :
    List (Int × Tag) × RepoResult Tag :=
  match store.find? (fun p => p.2.name == name) with
  | some p => (store, RepoResult.ok p.2)
  | none =>
    let id : Int := Int.ofNat store.length + 1
    let t : Tag := ⟨id, name⟩
    (hmInsert store id t, RepoResult.ok t)

/-- The outputs TagRepositoryForMemory.all may produce. -/
def memTagAllPossible (store : List (Int × Tag)) (out : List Tag) : Prop :=
  out.Perm (hmValues store)

/-- TagRepositoryForMemory.delete. -/
def memTagDelete (store : List (Int × Tag)) (i : Int) :
    List (Int × Tag) × RepoResult Unit :=
  match hmGet store i with
  | none => (store, RepoResult.err (RepositoryError.NotFound i))
  | some _ => (hmRemove store i, RepoResult.ok ())

/-- The empty database. -/
def emptyDb : DbState := ⟨[], [], [], 1, 1⟩

/-! ## Basic lemmas about the fueled recursions -/

theorem foldSpecAux_fuel :
    ∀ (n : Nat) (m : Nat) (l : List BlogWithTagFromRow), l.length ≤ n → l.length ≤ m →
      foldSpecAux n l = foldSpecAux m l := by
  intro n
  induction n with
  | zero =>
    intro m l hn _
    have : l = [] := List.eq_nil_of_length_eq_zero (Nat.le_zero.mp hn)
    subst this
    cases m <;> rfl
  | succ n ih =>
    intro m l hn hm
    cases l with
    | nil => cases m <;> rfl
    | cons r rs =>
      cases m with
      | zero => simp at hm
      | succ m =>
        have hf := List.length_filter_le (fun x => x.id != r.id) rs
        simp only [List.length_cons] at hn hm
        simp only [foldSpecAux]
        rw [ih m _ (by omega) (by omega)]

theorem fold_spec_cons (r : BlogWithTagFromRow) (rs : List BlogWithTagFromRow) :
    fold_spec (r :: rs) =
      { id := r.id, title := r.title, body := r.body,
        tags := (r :: rs.filter (fun x => x.id == r.id)).filterMap tagOfRow } ::
      fold_spec (rs.filter (fun x => x.id != r.id)) := by
  simp only [fold_spec, List.length_cons, foldSpecAux]
  rw [foldSpecAux_fuel rs.length (rs.filter (fun x => x.id != r.id)).length _
    (List.length_filter_le _ _) (le_refl _)]

theorem firstDedupAux_fuel :
    ∀ (n : Nat) (m : Nat) (l : List Int), l.length ≤ n → l.length ≤ m →
      firstDedupAux n l = firstDedupAux m l := by
  intro n
  induction n with
  | zero =>
    intro m l hn _
    have : l = [] := List.eq_nil_of_length_eq_zero (Nat.le_zero.mp hn)
    subst this
    cases m <;> rfl
  | succ n ih =>
    intro m l hn hm
    cases l with
    | nil => cases m <;> rfl
    | cons x xs =>
      cases m with
      | zero => simp at hm
      | succ m =>
        have hf := List.length_filter_le (fun y => y != x) xs
        simp only [List.length_cons] at hn hm
        simp only [firstDedupAux]
        rw [ih m _ (by omega) (by omega)]

theorem firstDedup_cons (x : Int) (xs : List Int) :
    firstDedup (x :: xs) = x :: firstDedup (xs.filter (fun y => y != x)) := by
  simp only [firstDedup, List.length_cons, firstDedupAux]
  rw [firstDedupAux_fuel xs.length (xs.filter (fun y => y != x)).length _
    (List.length_filter_le _ _) (le_refl _)]

/-! ## Lemmas about seenHas and wfFrom -/

theorem seenHas_cons (a : Int) (s : List Int) (i : Int) :
    seenHas (a :: s) i = ((a == i) || seenHas s i) := by
  simp [seenHas]

theorem seenHas_append (s t : List Int) (i : Int) :
    seenHas (s ++ t) i = (seenHas s i || seenHas t i) := by
  simp [seenHas, List.any_append]

theorem seenHas_eq_true_iff (s : List Int) (i : Int) :
    seenHas s i = true ↔ i ∈ s := by
  simp only [seenHas, List.any_eq_true, beq_iff_eq]
  constructor
  · rintro ⟨x, hx, rfl⟩
    exact hx
  · intro h
    exact ⟨i, h, rfl⟩

theorem seenHas_map_id (accum : List BlogEntity) (i : Int) :
    seenHas (accum.map (fun b => b.id)) i = hasId accum i := by
  induction accum with
  | nil => rfl
  | cons b bs ih => simp [seenHas, hasId, List.any_cons] at ih ⊢; rw [ih]

theorem wfFrom_congr :
    ∀ (rows : List BlogWithTagFromRow) (s1 s2 : List Int),
      (∀ x, seenHas s1 x = seenHas s2 x) → wfFrom s1 rows = wfFrom s2 rows := by
  intro rows
  induction rows with
  | nil => intro s1 s2 _; rfl
  | cons r rs ih =>
    intro s1 s2 h
    simp only [wfFrom]
    rw [h r.id, ih (r.id :: s1) (r.id :: s2)]
    intro x
    rw [seenHas_cons, seenHas_cons, h x]

theorem wfFrom_append :
    ∀ (xs : List BlogWithTagFromRow) (s : List Int) (ys : List BlogWithTagFromRow),
      wfFrom s (xs ++ ys) =
        (wfFrom s xs && wfFrom (xs.map (fun r => r.id) ++ s) ys) := by
  intro xs
  induction xs with
  | nil => intro s ys; simp [wfFrom]
  | cons x xs ih =>
    intro s ys
    simp only [List.cons_append, wfFrom, List.map_cons, List.append_eq]
    rw [ih (x.id :: s) ys]
    rw [wfFrom_congr ys (xs.map (fun r => r.id) ++ x.id :: s)
      ((x.id :: xs.map (fun r => r.id)) ++ s)]
    · simp [Bool.and_assoc]
    · intro i
      simp only [seenHas_append, seenHas_cons]
      cases h1 : x.id == i <;> cases h2 : seenHas (xs.map (fun r => r.id)) i <;>
        cases h3 : seenHas s i <;> rfl

theorem wfFrom_of_allSome (s : List Int) :
    ∀ (g : List BlogWithTagFromRow),
      (∀ r ∈ g, r.label_id.isSome = true ∧ r.tag_name.isSome = true) →
      wfFrom s g = true := by
  intro g
  induction g generalizing s with
  | nil => intro _; rfl
  | cons r rs ih =>
    intro h
    have hr := h r (List.mem_cons_self r rs)
    simp only [wfFrom, hr.1, hr.2, Bool.or_true, Bool.and_true, Bool.true_and]
    simp only [beq_self_eq_true, Bool.true_and]
    exact ih _ (fun x hx => h x (List.mem_cons_of_mem r hx))

theorem wfFrom_single_null (s : List Int) (r : BlogWithTagFromRow)
    (hseen : seenHas s r.id = false) (hl : r.label_id = none) (hn : r.tag_name = none) :
    wfFrom s [r] = true := by
  simp [wfFrom, hl, hn, hseen]

/-! ## Lemmas about the fold accumulator -/

theorem int_beq_comm (a b : Int) : (a == b) = (b == a) := by
  rcases eq_or_ne a b with h | h
  · subst h; rfl
  · simp [h, Ne.symm h]

theorem hasId_cons (b : BlogEntity) (bs : List BlogEntity) (i : Int) :
    hasId (b :: bs) i = ((b.id == i) || hasId bs i) := by
  simp [hasId]

theorem hasId_append (a b : List BlogEntity) (i : Int) :
    hasId (a ++ b) i = (hasId a i || hasId b i) := by
  simp [hasId]

theorem hasId_eq_false_iff (accum : List BlogEntity) (i : Int) :
    hasId accum i = false ↔ ∀ b ∈ accum, b.id ≠ i := by
  simp [hasId]

theorem attachFirst_map_id (accum : List BlogEntity) (i : Int) (t : Tag) :
    (attachFirst accum i t).map (fun b => b.id) = accum.map (fun b => b.id) := by
  induction accum with
  | nil => rfl
  | cons b bs ih =>
    simp only [attachFirst]
    by_cases h : (b.id == i) = true
    · rw [if_pos h]
      simp only [List.map_cons]
    · rw [if_neg h]
      simp only [List.map_cons, ih]

theorem hasId_attachFirst (accum : List BlogEntity) (i : Int) (t : Tag) (j : Int) :
    hasId (attachFirst accum i t) j = hasId accum j := by
  have h1 := seenHas_map_id (attachFirst accum i t) j
  have h2 := seenHas_map_id accum j
  rw [← h1, ← h2, attachFirst_map_id]

theorem tagOfRow_of_some (r : BlogWithTagFromRow)
    (hl : r.label_id.isSome = true)
    (hw : (r.label_id.isSome == r.tag_name.isSome) = true) :
    ∃ t, tagOfRow r = some t := by
  rcases hln : r.label_id with _ | i
  · rw [hln] at hl; simp at hl
  · rcases hnn : r.tag_name with _ | n
    · rw [hln, hnn] at hw; simp at hw
    · exact ⟨⟨i, n⟩, by simp [tagOfRow, hln, hnn]⟩

theorem foldStep_matched (accum : List BlogEntity) (r : BlogWithTagFromRow)
    (h : hasId accum r.id = true) :
    foldStep accum r = (tagOfRow r).map (fun t => attachFirst accum r.id t) := by
  simp [foldStep, h]

theorem foldStep_fresh (accum : List BlogEntity) (r : BlogWithTagFromRow)
    (h : hasId accum r.id = false)
    (hw : (r.label_id.isSome == r.tag_name.isSome) = true) :
    foldStep accum r =
      some (accum ++ [⟨r.id, r.title, r.body, (tagOfRow r).toList⟩]) := by
  rcases hln : r.label_id with _ | i
  · have hnn : r.tag_name = none := by
      rw [hln] at hw
      rcases h2 : r.tag_name with _ | n
      · rfl
      · rw [h2] at hw; simp at hw
    simp [foldStep, h, hln, tagOfRow, hnn]
  · have hnn : ∃ n, r.tag_name = some n := by
      rw [hln] at hw
      rcases h2 : r.tag_name with _ | n
      · rw [h2] at hw; simp at hw
      · exact ⟨n, rfl⟩
    obtain ⟨n, hnn⟩ := hnn
    simp [foldStep, h, hln, tagOfRow, hnn]

theorem augment_nil (accum : List BlogEntity) : augment accum [] = accum := by
  unfold augment
  rw [List.map_congr_left (fun b _ => ?_), List.map_id]
  simp

theorem augment_append (a b : List BlogEntity) (rows : List BlogWithTagFromRow) :
    augment (a ++ b) rows = augment a rows ++ augment b rows := by
  simp [augment]

theorem filter_rows_cons_eq (i : Int) (r : BlogWithTagFromRow)
    (rs : List BlogWithTagFromRow) (h : (r.id == i) = true) :
    (r :: rs).filter (fun x => x.id == i) = r :: rs.filter (fun x => x.id == i) := by
  simp only [List.filter_cons, h, if_true]

theorem filter_rows_cons_ne (i : Int) (r : BlogWithTagFromRow)
    (rs : List BlogWithTagFromRow) (h : (r.id == i) = false) :
    (r :: rs).filter (fun x => x.id == i) = rs.filter (fun x => x.id == i) := by
  simp only [List.filter_cons, h]
  rfl

theorem augment_cons_entry (b : BlogEntity) (bs : List BlogEntity)
    (rows : List BlogWithTagFromRow) :
    augment (b :: bs) rows =
      { b with tags := b.tags ++ (rows.filter (fun r => r.id == b.id)).filterMap tagOfRow } ::
      augment bs rows := rfl

theorem augment_cons_fresh (accum : List BlogEntity) (r : BlogWithTagFromRow)
    (rs : List BlogWithTagFromRow) (h : hasId accum r.id = false) :
    augment accum (r :: rs) = augment accum rs := by
  unfold augment
  apply List.map_congr_left
  intro b hb
  have hne : b.id ≠ r.id := (hasId_eq_false_iff accum r.id).mp h b hb
  have h2 : (r.id == b.id) = false := by
    simp only [beq_eq_false_iff_ne, ne_eq]
    intro h3
    exact hne h3.symm
  rw [filter_rows_cons_ne _ _ _ h2]

theorem augment_cons_matched :
    ∀ (accum : List BlogEntity) (r : BlogWithTagFromRow) (rs : List BlogWithTagFromRow)
      (t : Tag),
      (accum.map (fun b => b.id)).Nodup →
      hasId accum r.id = true →
      tagOfRow r = some t →
      augment accum (r :: rs) = augment (attachFirst accum r.id t) rs := by
  intro accum
  induction accum with
  | nil => intro r rs t _ h _; simp [hasId] at h
  | cons b bs ih =>
    intro r rs t hnd h ht
    rw [List.map_cons, List.nodup_cons] at hnd
    by_cases hb : b.id = r.id
    · have hb2 : (b.id == r.id) = true := by simp [hb]
      have hb3 : (r.id == b.id) = true := by simp [hb]
      simp only [attachFirst]
      rw [if_pos hb2]
      rw [augment_cons_entry, augment_cons_entry]
      congr 1
      · rw [filter_rows_cons_eq _ _ _ hb3, List.filterMap_cons_some ht]
        simp [List.append_assoc]
      · apply List.map_congr_left
        intro c hc
        have hcne : c.id ≠ b.id := fun hceq =>
          hnd.1 (hceq ▸ List.mem_map_of_mem (fun x => x.id) hc)
        have h2 : (r.id == c.id) = false := by
          simp only [beq_eq_false_iff_ne, ne_eq]
          intro h3
          exact hcne (h3 ▸ hb).symm
        rw [filter_rows_cons_ne _ _ _ h2]
    · have hb2 : ¬((b.id == r.id) = true) := by simp [hb]
      rw [hasId_cons] at h
      have h4 : hasId bs r.id = true := by
        rcases Bool.or_eq_true_iff.mp h with h5 | h5
        · exact absurd h5 hb2
        · exact h5
      simp only [attachFirst]
      rw [if_neg hb2]
      rw [augment_cons_entry, augment_cons_entry]
      rw [ih r rs t hnd.2 h4 ht]
      congr 1
      have h2 : (r.id == b.id) = false := by
        simp only [beq_eq_false_iff_ne, ne_eq]
        intro h3
        exact hb h3.symm
      rw [filter_rows_cons_ne _ _ _ h2]

/-! ## The central fold correctness lemma -/

theorem filter_not_hasId_cons_matched (accum : List BlogEntity) (r : BlogWithTagFromRow)
    (rs : List BlogWithTagFromRow) (h : hasId accum r.id = true) :
    (r :: rs).filter (fun x => !hasId accum x.id) =
      rs.filter (fun x => !hasId accum x.id) := by
  simp only [List.filter_cons, h, Bool.not_true]
  rfl

theorem filter_not_hasId_cons_fresh (accum : List BlogEntity) (r : BlogWithTagFromRow)
    (rs : List BlogWithTagFromRow) (h : hasId accum r.id = false) :
    (r :: rs).filter (fun x => !hasId accum x.id) =
      r :: rs.filter (fun x => !hasId accum x.id) := by
  simp only [List.filter_cons, h, Bool.not_false, if_true]

theorem filterMap_tagOfRow_cons (r : BlogWithTagFromRow) (l : List BlogWithTagFromRow) :
    (r :: l).filterMap tagOfRow = (tagOfRow r).toList ++ l.filterMap tagOfRow := by
  cases h : tagOfRow r
  · rw [List.filterMap_cons_none h]
    rfl
  · rw [List.filterMap_cons_some h]
    rfl

theorem hasId_singleton (e : BlogEntity) (i : Int) : hasId [e] i = (e.id == i) := by
  simp [hasId]

theorem foldAux_merge :
    ∀ (rows : List BlogWithTagFromRow) (accum : List BlogEntity),
      (accum.map (fun b => b.id)).Nodup →
      wfFrom (accum.map (fun b => b.id)) rows = true →
      foldAux accum rows =
        some (augment accum rows ++
          fold_spec (rows.filter (fun r => !hasId accum r.id))) := by
  intro rows
  induction rows with
  | nil =>
    intro accum _ _
    simp [foldAux, augment_nil, fold_spec, foldSpecAux]
  | cons r rs ih =>
    intro accum hnd hwf
    simp only [wfFrom, Bool.and_eq_true] at hwf
    obtain ⟨⟨hwf1, hwf2⟩, hwf3⟩ := hwf
    cases hm : hasId accum r.id with
    | true =>
      have hseen : seenHas (accum.map (fun b => b.id)) r.id = true := by
        rw [seenHas_map_id]
        exact hm
      rw [hseen] at hwf2
      have hl : r.label_id.isSome = true := by simpa using hwf2
      obtain ⟨t, ht⟩ := tagOfRow_of_some r hl hwf1
      have hstep : foldStep accum r = some (attachFirst accum r.id t) := by
        rw [foldStep_matched accum r hm, ht]
        rfl
      simp only [foldAux, hstep]
      have hnd2 : ((attachFirst accum r.id t).map (fun b => b.id)).Nodup := by
        rw [attachFirst_map_id]
        exact hnd
      have hwf4 : wfFrom ((attachFirst accum r.id t).map (fun b => b.id)) rs = true := by
        rw [attachFirst_map_id]
        rw [wfFrom_congr rs (accum.map (fun b => b.id))
          (r.id :: accum.map (fun b => b.id)) ?_]
        · exact hwf3
        · intro x
          rw [seenHas_cons]
          cases hrx : (r.id == x) with
          | false => simp
          | true =>
            have hx : r.id = x := by simpa using hrx
            rw [← hx, hseen]
            simp
      rw [ih _ hnd2 hwf4]
      congr 1
      congr 1
      · exact (augment_cons_matched accum r rs t hnd hm ht).symm
      · rw [filter_not_hasId_cons_matched accum r rs hm]
        congr 1
        apply List.filter_congr
        intro x _
        rw [hasId_attachFirst]
    | false =>
      have hstep := foldStep_fresh accum r hm hwf1
      simp only [foldAux, hstep]
      have hmem : r.id ∉ accum.map (fun b => b.id) := by
        intro hx
        have h2 : seenHas (accum.map (fun b => b.id)) r.id = true :=
          (seenHas_eq_true_iff _ _).mpr hx
        rw [seenHas_map_id, hm] at h2
        exact Bool.false_ne_true h2
      have hnd2 : (((accum ++
          [(⟨r.id, r.title, r.body, (tagOfRow r).toList⟩ : BlogEntity)]).map
            (fun b => b.id))).Nodup := by
        rw [List.map_append]
        show (accum.map (fun b => b.id) ++ [r.id]).Nodup
        rw [(List.perm_append_singleton _ _).nodup_iff, List.nodup_cons]
        exact ⟨hmem, hnd⟩
      have hwf4 : wfFrom (((accum ++
          [(⟨r.id, r.title, r.body, (tagOfRow r).toList⟩ : BlogEntity)]).map
            (fun b => b.id))) rs = true := by
        rw [List.map_append]
        show wfFrom (accum.map (fun b => b.id) ++ [r.id]) rs = true
        rw [wfFrom_congr rs (accum.map (fun b => b.id) ++ [r.id])
          (r.id :: accum.map (fun b => b.id)) ?_]
        · exact hwf3
        · intro x
          rw [seenHas_append, seenHas_cons, seenHas_cons]
          cases h1 : seenHas (accum.map (fun b => b.id)) x <;>
            cases h2 : (r.id == x) <;> rfl
      rw [ih _ hnd2 hwf4]
      have hA : augment (accum ++
          [(⟨r.id, r.title, r.body, (tagOfRow r).toList⟩ : BlogEntity)]) rs =
          augment accum rs ++
          [(⟨r.id, r.title, r.body,
            (tagOfRow r).toList ++ (rs.filter (fun x => x.id == r.id)).filterMap tagOfRow⟩ :
              BlogEntity)] := by
        rw [augment_append]
        rfl
      have hD : (rs.filter (fun x => !hasId accum x.id)).filter (fun x => x.id == r.id) =
          rs.filter (fun x => x.id == r.id) := by
        rw [List.filter_filter]
        apply List.filter_congr
        intro x _
        cases hx : (x.id == r.id) with
        | false => rfl
        | true =>
          have hxe : x.id = r.id := by simpa using hx
          rw [hxe, hm]
          rfl
      have hE : (rs.filter (fun x => !hasId accum x.id)).filter (fun x => x.id != r.id) =
          rs.filter (fun x => !hasId (accum ++
            [(⟨r.id, r.title, r.body, (tagOfRow r).toList⟩ : BlogEntity)]) x.id) := by
        rw [List.filter_filter]
        apply List.filter_congr
        intro x _
        rw [hasId_append, hasId_singleton]
        show ((x.id != r.id) && !hasId accum x.id) = !(hasId accum x.id || (r.id == x.id))
        cases h1 : hasId accum x.id with
        | true => simp [bne, int_beq_comm x.id r.id]
        | false =>
          cases h2 : (r.id == x.id) with
          | true => simp [bne, int_beq_comm x.id r.id, h2]
          | false => simp [bne, int_beq_comm x.id r.id, h2]
      rw [hA, augment_cons_fresh accum r rs hm, filter_not_hasId_cons_fresh accum r rs hm,
        fold_spec_cons, filterMap_tagOfRow_cons, hD, hE, List.append_assoc]
      rfl

theorem fold_entities_eq_spec (rows : List BlogWithTagFromRow)
    (hwf : wfFrom [] rows = true) :
    fold_entities rows = some (fold_spec rows) := by
  have h := foldAux_merge rows [] (by simp) hwf
  rw [fold_entities, h]
  have h2 : rows.filter (fun r => !hasId [] r.id) = rows := by
    apply List.filter_eq_self.mpr
    intro a _
    rfl
  rw [h2]
  rfl

/-! ## Identity structure of the spec fold and of the all query -/

theorem fold_spec_map_id :
    ∀ (n : Nat) (rows : List BlogWithTagFromRow), rows.length ≤ n →
      (fold_spec rows).map (fun b => b.id) = firstDedup (rows.map (fun r => r.id)) := by
  intro n
  induction n with
  | zero =>
    intro rows h
    have : rows = [] := List.eq_nil_of_length_eq_zero (Nat.le_zero.mp h)
    subst this
    rfl
  | succ n ih =>
    intro rows h
    cases rows with
    | nil => rfl
    | cons r rs =>
      rw [fold_spec_cons, List.map_cons, List.map_cons, firstDedup_cons]
      congr 1
      rw [List.filter_map]
      rw [ih _ (le_trans (List.length_filter_le _ _)
        (by simpa using Nat.le_of_succ_le_succ h))]
      rfl

theorem fold_spec_ids (rows : List BlogWithTagFromRow) :
    (fold_spec rows).map (fun b => b.id) = firstDedup (rows.map (fun r => r.id)) :=
  fold_spec_map_id rows.length rows (le_refl _)

theorem firstDedup_sublist :
    ∀ (n : Nat) (l : List Int), l.length ≤ n → (firstDedup l).Sublist l := by
  intro n
  induction n with
  | zero =>
    intro l h
    have : l = [] := List.eq_nil_of_length_eq_zero (Nat.le_zero.mp h)
    subst this
    exact List.Sublist.refl []
  | succ n ih =>
    intro l h
    cases l with
    | nil => exact List.Sublist.refl []
    | cons x xs =>
      rw [firstDedup_cons]
      exact List.Sublist.cons₂ x
        (List.Sublist.trans
          (ih _ (le_trans (List.length_filter_le _ _)
            (by simpa using Nat.le_of_succ_le_succ h)))
          (List.filter_sublist xs))

theorem mem_joinMap {α β : Type} (f : α → List β) :
    ∀ (l : List α) (x : β), x ∈ joinMap f l ↔ ∃ a ∈ l, x ∈ f a := by
  intro l
  induction l with
  | nil => intro x; simp [joinMap]
  | cons a as ih =>
    intro x
    simp only [joinMap, List.mem_append, ih, List.mem_cons]
    constructor
    · rintro (h | ⟨b, hb, hx⟩)
      · exact ⟨a, Or.inl rfl, h⟩
      · exact ⟨b, Or.inr hb, hx⟩
    · rintro ⟨b, (rfl | hb), hx⟩
      · exact Or.inl hx
      · exact Or.inr ⟨b, hb, hx⟩

theorem filter_single_of_nodup :
    ∀ (blogs : List BlogFromRow), (blogs.map (fun x => x.id)).Nodup →
      ∀ b ∈ blogs, blogs.filter (fun x => x.id == b.id) = [b] := by
  intro blogs
  induction blogs with
  | nil => intro _ b hb; cases hb
  | cons c cs ih =>
    intro hnd b hb
    rw [List.map_cons, List.nodup_cons] at hnd
    rcases List.mem_cons.mp hb with rfl | hb2
    · rw [List.filter_cons]
      have hc : (b.id == b.id) = true := by simp
      rw [hc]
      simp only [if_true]
      have : cs.filter (fun x => x.id == b.id) = [] := by
        rw [List.filter_eq_nil_iff]
        intro x hx
        simp only [beq_iff_eq]
        intro he
        exact hnd.1 (he ▸ List.mem_map_of_mem (fun y => y.id) hx)
      rw [this]
    · have hcb : c.id ≠ b.id := by
        intro he
        exact hnd.1 (he ▸ List.mem_map_of_mem (fun y => y.id) hb2)
      rw [List.filter_cons]
      have hc : (c.id == b.id) = false := by
        simp only [beq_eq_false_iff_ne, ne_eq]
        exact hcb
      rw [hc]
      simp only [Bool.false_eq_true, if_false]
      exact ih hnd.2 b hb2

theorem rowsForBlog_mem (st : DbState) (b : BlogFromRow) :
    ∀ r ∈ rowsForBlog st b, r.id = b.id ∧ r.title = b.title ∧ r.body = b.body := by
  intro r hr
  simp only [rowsForBlog] at hr
  by_cases hif : (st.blog_tags.filter (fun p => p.1 == b.id)).isEmpty = true
  · rw [if_pos hif] at hr
    rcases List.mem_singleton.mp hr with rfl
    exact ⟨rfl, rfl, rfl⟩
  · rw [if_neg hif] at hr
    obtain ⟨p, _, rfl⟩ := List.mem_map.mp hr
    cases hfind : st.tags.find? (fun t => t.id == p.2) <;> simp [hfind]

theorem rowsForBlog_ne_nil (st : DbState) (b : BlogFromRow) :
    rowsForBlog st b ≠ [] := by
  simp only [rowsForBlog]
  by_cases hif : (st.blog_tags.filter (fun p => p.1 == b.id)).isEmpty = true
  · rw [if_pos hif]
    simp
  · rw [if_neg hif]
    rw [Ne, List.map_eq_nil_iff]
    intro he
    rw [he] at hif
    exact hif rfl

theorem rowsForBlog_wf (st : DbState) (b : BlogFromRow) (s : List Int)
    (hfk : ∀ p ∈ st.blog_tags, (st.tags.find? (fun t => t.id == p.2)).isSome = true)
    (hseen : seenHas s b.id = false) :
    wfFrom s (rowsForBlog st b) = true := by
  simp only [rowsForBlog]
  by_cases hif : (st.blog_tags.filter (fun p => p.1 == b.id)).isEmpty = true
  · rw [if_pos hif]
    exact wfFrom_single_null s ⟨b.id, b.title, b.body, none, none⟩ hseen rfl rfl
  · rw [if_neg hif]
    apply wfFrom_of_allSome
    intro r hr
    obtain ⟨p, hp, rfl⟩ := List.mem_map.mp hr
    have hp2 : p ∈ st.blog_tags := List.mem_of_mem_filter hp
    have hfk2 := hfk p hp2
    cases hfind : st.tags.find? (fun t => t.id == p.2) with
    | none => rw [hfind] at hfk2; simp at hfk2
    | some t => simp [hfind]

theorem wfFrom_joinMap (st : DbState)
    (hfk : ∀ p ∈ st.blog_tags, (st.tags.find? (fun t => t.id == p.2)).isSome = true) :
    ∀ (blogs : List BlogFromRow) (s : List Int),
      (∀ b ∈ blogs, seenHas s b.id = false) →
      blogs.Pairwise (fun a b => a.id ≠ b.id) →
      wfFrom s (joinMap (rowsForBlog st) blogs) = true := by
  intro blogs
  induction blogs with
  | nil => intro s _ _; rfl
  | cons b bs ih =>
    intro s hseen hpw
    rw [List.pairwise_cons] at hpw
    simp only [joinMap]
    rw [wfFrom_append]
    rw [rowsForBlog_wf st b s hfk (hseen b (List.mem_cons_self b bs)), Bool.true_and]
    apply ih
    · intro c hc
      rw [seenHas_append]
      have h2 : seenHas ((rowsForBlog st b).map (fun r => r.id)) c.id = false := by
        cases h3 : seenHas ((rowsForBlog st b).map (fun r => r.id)) c.id with
        | false => rfl
        | true =>
          exfalso
          have h4 := (seenHas_eq_true_iff _ _).mp h3
          obtain ⟨r, hr, hre⟩ := List.mem_map.mp h4
          have h5 := (rowsForBlog_mem st b r hr).1
          exact hpw.1 c hc (by rw [← hre, h5])
      rw [h2, hseen c (List.mem_cons_of_mem b hc)]
      rfl
    · exact hpw.2

theorem sortBlogsDesc_perm (blogs : List BlogFromRow) :
    (sortBlogsDesc blogs).Perm blogs :=
  List.perm_insertionSort blogGe blogs

theorem sortBlogsDesc_sorted (blogs : List BlogFromRow) :
    (sortBlogsDesc blogs).Pairwise blogGe :=
  List.sorted_insertionSort blogGe blogs

theorem sortBlogsDesc_nodup (blogs : List BlogFromRow)
    (hnd : (blogs.map (fun b => b.id)).Nodup) :
    ((sortBlogsDesc blogs).map (fun b => b.id)).Nodup :=
  (((sortBlogsDesc_perm blogs).map (fun b => b.id)).nodup_iff).mpr hnd

theorem sortBlogsDesc_ids_strict (blogs : List BlogFromRow)
    (hnd : (blogs.map (fun b => b.id)).Nodup) :
    ((sortBlogsDesc blogs).map (fun b => b.id)).Pairwise (fun a b => b < a) := by
  have hs : (sortBlogsDesc blogs).Pairwise blogGe := sortBlogsDesc_sorted blogs
  have hn : ((sortBlogsDesc blogs).map (fun b => b.id)).Nodup := sortBlogsDesc_nodup blogs hnd
  rw [List.pairwise_map]
  have hn2 : (sortBlogsDesc blogs).Pairwise (fun a b => a.id ≠ b.id) :=
    List.pairwise_map.mp hn
  exact (hs.and hn2).imp (fun h => lt_of_le_of_ne h.1 (Ne.symm h.2))

theorem firstDedup_joinMap (st : DbState) :
    ∀ (blogs : List BlogFromRow),
      (blogs.map (fun b => b.id)).Nodup →
      firstDedup ((joinMap (rowsForBlog st) blogs).map (fun r => r.id)) =
        blogs.map (fun b => b.id) := by
  intro blogs
  induction blogs with
  | nil => intro _; rfl
  | cons b bs ih =>
    intro hnd
    rw [List.map_cons, List.nodup_cons] at hnd
    simp only [joinMap, List.map_append]
    rcases hg : rowsForBlog st b with _ | ⟨r0, rtl⟩
    · exact absurd hg (rowsForBlog_ne_nil st b)
    · have hr0 : r0.id = b.id :=
        (rowsForBlog_mem st b r0 (hg ▸ List.mem_cons_self r0 rtl)).1
      have hall : ∀ x ∈ rtl, x.id = b.id := fun x hx =>
        (rowsForBlog_mem st b x (hg ▸ List.mem_cons_of_mem r0 hx)).1
      rw [List.map_cons, List.cons_append, firstDedup_cons, hr0]
      congr 1
      rw [List.filter_append]
      have h1 : (rtl.map (fun r => r.id)).filter (fun y => y != b.id) = [] := by
        rw [List.filter_eq_nil_iff]
        intro x hx
        obtain ⟨r, hr, rfl⟩ := List.mem_map.mp hx
        simp [hall r hr]
      have h2 : ((joinMap (rowsForBlog st) bs).map (fun r => r.id)).filter
          (fun y => y != b.id) = (joinMap (rowsForBlog st) bs).map (fun r => r.id) := by
        rw [List.filter_eq_self]
        intro x hx
        obtain ⟨r, hr, rfl⟩ := List.mem_map.mp hx
        obtain ⟨b2, hb2, hrb2⟩ := (mem_joinMap (rowsForBlog st) bs r).mp hr
        have h3 : r.id = b2.id := (rowsForBlog_mem st b2 r hrb2).1
        have h4 : b2.id ∈ bs.map (fun x => x.id) := List.mem_map_of_mem _ hb2
        simp only [bne_iff_ne, ne_eq, h3]
        intro he
        exact hnd.1 (he ▸ h4)
      rw [h1, h2, List.nil_append]
      exact ih hnd.2

theorem allQuery_wf (st : DbState)
    (hnd : (st.blogs.map (fun b => b.id)).Nodup)
    (hfk : ∀ p ∈ st.blog_tags, (st.tags.find? (fun t => t.id == p.2)).isSome = true) :
    wfFrom [] (allQuery st) = true := by
  apply wfFrom_joinMap st hfk
  · intro b _
    rfl
  · exact List.pairwise_map.mp (sortBlogsDesc_nodup st.blogs hnd)

theorem dbAll_correct (st : DbState)
    (hnd : (st.blogs.map (fun b => b.id)).Nodup)
    (hfk : ∀ p ∈ st.blog_tags, (st.tags.find? (fun t => t.id == p.2)).isSome = true) :
    dbAll st = RepoResult.ok (fold_spec (allQuery st)) ∧
    (fold_spec (allQuery st)).map (fun b => b.id) =
      (sortBlogsDesc st.blogs).map (fun b => b.id) ∧
    ((fold_spec (allQuery st)).map (fun b => b.id)).Pairwise (fun a b => b < a) := by
  have hwf := allQuery_wf st hnd hfk
  have h1 := fold_entities_eq_spec (allQuery st) hwf
  have hids : (fold_spec (allQuery st)).map (fun b => b.id) =
      (sortBlogsDesc st.blogs).map (fun b => b.id) := by
    rw [fold_spec_ids]
    exact firstDedup_joinMap st (sortBlogsDesc st.blogs) (sortBlogsDesc_nodup st.blogs hnd)
  refine ⟨?_, hids, ?_⟩
  · simp only [dbAll, h1]
  · rw [hids]
    exact sortBlogsDesc_ids_strict st.blogs hnd

/-! ## Hydration of a single post and the no-op update -/

theorem blogs_any_of_mem (blogs : List BlogFromRow) (b : BlogFromRow) (hb : b ∈ blogs) :
    blogs.any (fun x => x.id == b.id) = true :=
  List.any_eq_true.mpr ⟨b, hb, by simp⟩

theorem findRows_eq (st : DbState) (b : BlogFromRow)
    (hnd : (st.blogs.map (fun x => x.id)).Nodup) (hb : b ∈ st.blogs) :
    findRows st b.id = rowsForBlog st b := by
  unfold findRows
  rw [filter_single_of_nodup st.blogs hnd b hb]
  simp [joinMap]

theorem fold_group (st : DbState) (b : BlogFromRow)
    (hfk : ∀ p ∈ st.blog_tags, (st.tags.find? (fun t => t.id == p.2)).isSome = true) :
    fold_entities (rowsForBlog st b) =
      some [⟨b.id, b.title, b.body, (rowsForBlog st b).filterMap tagOfRow⟩] := by
  rw [fold_entities_eq_spec _ (rowsForBlog_wf st b [] hfk rfl)]
  rcases hg : rowsForBlog st b with _ | ⟨r0, rtl⟩
  · exact absurd hg (rowsForBlog_ne_nil st b)
  · have hr0 := rowsForBlog_mem st b r0 (hg ▸ List.mem_cons_self r0 rtl)
    have hall : ∀ x ∈ rtl, x.id = b.id := fun x hx =>
      (rowsForBlog_mem st b x (hg ▸ List.mem_cons_of_mem r0 hx)).1
    rw [fold_spec_cons]
    have h1 : rtl.filter (fun x => x.id == r0.id) = rtl := by
      rw [List.filter_eq_self]
      intro x hx
      simp [hall x hx, hr0.1]
    have h2 : rtl.filter (fun x => x.id != r0.id) = [] := by
      rw [List.filter_eq_nil_iff]
      intro x hx
      simp [hall x hx, hr0.1]
    rw [h1, h2]
    rw [hr0.1, hr0.2.1, hr0.2.2]
    rfl

theorem dbFind_eq (st : DbState) (b : BlogFromRow)
    (hnd : (st.blogs.map (fun x => x.id)).Nodup) (hb : b ∈ st.blogs)
    (hfk : ∀ p ∈ st.blog_tags, (st.tags.find? (fun t => t.id == p.2)).isSome = true) :
    dbFind st b.id =
      RepoResult.ok ⟨b.id, b.title, b.body, (rowsForBlog st b).filterMap tagOfRow⟩ := by
  unfold dbFind
  rw [findRows_eq st b hnd hb, fold_group st b hfk]
  rfl

theorem dbUpdate_noop (st : DbState) (b : BlogFromRow)
    (hnd : (st.blogs.map (fun x => x.id)).Nodup) (hb : b ∈ st.blogs)
    (hfk : ∀ p ∈ st.blog_tags, (st.tags.find? (fun t => t.id == p.2)).isSome = true) :
    dbUpdate st b.id ⟨none, none, none⟩ =
      (st, RepoResult.ok ⟨b.id, b.title, b.body, (rowsForBlog st b).filterMap tagOfRow⟩) := by
  have hfind := dbFind_eq st b hnd hb hfk
  have hmap : st.blogs.map
      (fun x => if x.id == b.id then (⟨b.id, b.title, b.body⟩ : BlogFromRow) else x) =
      st.blogs := by
    have hpt : ∀ x ∈ st.blogs,
        (if x.id == b.id then (⟨b.id, b.title, b.body⟩ : BlogFromRow) else x) = x := by
      intro x hx
      by_cases hxe : (x.id == b.id) = true
      · rw [if_pos hxe]
        have hxb : x = b := by
          have h2 : x ∈ st.blogs.filter (fun y => y.id == b.id) :=
            List.mem_filter.mpr ⟨hx, hxe⟩
          rw [filter_single_of_nodup st.blogs hnd b hb] at h2
          simpa using h2
        rw [hxb]
      · rw [if_neg hxe]
    rw [List.map_congr_left hpt]
    simp
  have hstmt : updateBlogRowStmt st b.id b.title b.body = Except.ok st := by
    unfold updateBlogRowStmt
    rw [if_pos (blogs_any_of_mem st.blogs b hb)]
    rw [hmap]
  simp only [dbUpdate, hfind, Option.getD_none, hstmt]

/-! ## Association-list facts about the in-memory hash maps -/

theorem keys_nodup_unique {α : Type} :
    ∀ (store : List (Int × α)), (store.map (fun p => p.1)).Nodup →
      ∀ p ∈ store, ∀ q ∈ store, p.1 = q.1 → p = q := by
  intro store
  induction store with
  | nil => intro _ p hp; cases hp
  | cons c cs ih =>
    intro hnd p hp q hq he
    rw [List.map_cons, List.nodup_cons] at hnd
    rcases List.mem_cons.mp hp with rfl | hp2
    · rcases List.mem_cons.mp hq with rfl | hq2
      · rfl
      · exfalso
        apply hnd.1
        rw [he]
        exact List.mem_map_of_mem (fun r => r.1) hq2
    · rcases List.mem_cons.mp hq with rfl | hq2
      · exfalso
        apply hnd.1
        rw [← he]
        exact List.mem_map_of_mem (fun r => r.1) hp2
      · exact ih hnd.2 p hp2 q hq2 he

theorem hmGet_find {α : Type} (store : List (Int × α)) (i : Int) (v : α)
    (h : hmGet store i = some v) :
    ∃ p, store.find? (fun q => q.1 == i) = some p ∧ p.1 = i ∧ p.2 = v ∧ p ∈ store := by
  unfold hmGet at h
  cases hf : store.find? (fun q => q.1 == i) with
  | none => rw [hf] at h; simp at h
  | some p =>
    rw [hf] at h
    refine ⟨p, rfl, ?_, ?_, List.mem_of_find?_eq_some hf⟩
    · have h2 := List.find?_some hf
      simpa using h2
    · simpa using h

theorem hmInsert_self {α : Type} (store : List (Int × α)) (i : Int) (v : α)
    (hnd : (store.map (fun p => p.1)).Nodup)
    (h : hmGet store i = some v) :
    hmInsert store i v = store := by
  obtain ⟨p, hfind, hp1, hp2, hpm⟩ := hmGet_find store i v h
  have hany : store.any (fun q => q.1 == i) = true :=
    List.any_eq_true.mpr ⟨p, hpm, by simp [hp1]⟩
  unfold hmInsert
  rw [if_pos hany]
  have hpt : ∀ q ∈ store, (if q.1 == i then (i, v) else q) = q := by
    intro q hq
    by_cases hqe : (q.1 == i) = true
    · rw [if_pos hqe]
      have hq1 : q.1 = i := by simpa using hqe
      have hqp : q = p := keys_nodup_unique store hnd q hq p hpm (by rw [hq1, hp1])
      rw [hqp, ← hp1, ← hp2]
    · rw [if_neg hqe]
  rw [List.map_congr_left hpt]
  simp

theorem memBlogUpdate_noop (repo : BlogRepositoryForMemory) (i : Int) (blog : BlogEntity)
    (hnd : (repo.store.map (fun p => p.1)).Nodup)
    (hget : hmGet repo.store i = some blog) (hid : blog.id = i) :
    memBlogUpdate repo i ⟨none, none, none⟩ = (repo, RepoResult.ok blog) := by
  have hb : (⟨i, blog.title, blog.body, blog.tags⟩ : BlogEntity) = blog := by
    rw [← hid]
  simp only [memBlogUpdate, hget, Option.getD_none]
  rw [hb, hmInsert_self repo.store i blog hnd hget]

/-! ## The shared-iterator tag resolution and the in-memory id assignment -/

theorem findConsume_split (i : Int) :
    ∀ (avail : List Tag) (t : Tag) (rest : List Tag),
      findConsume i avail = some (t, rest) →
      t.id = i ∧ ∃ pre, avail = pre ++ t :: rest := by
  intro avail
  induction avail with
  | nil => intro t rest h; cases h
  | cons a as ih =>
    intro t rest h
    simp only [findConsume] at h
    by_cases ha : (a.id == i) = true
    · rw [if_pos ha] at h
      cases h
      exact ⟨by simpa using ha, [], rfl⟩
    · rw [if_neg ha] at h
      obtain ⟨h1, pre, h2⟩ := ih t rest h
      exact ⟨h1, a :: pre, by rw [h2]; rfl⟩

theorem resolveAux_spec :
    ∀ (ids : List Int) (avail : List Tag) (out : List Tag),
      resolveAux avail ids = some out →
      out.map (fun t => t.id) = ids ∧ out.Sublist avail := by
  intro ids
  induction ids with
  | nil =>
    intro avail out h
    simp only [resolveAux] at h
    cases h
    exact ⟨rfl, List.nil_sublist avail⟩
  | cons i is ih =>
    intro avail out h
    simp only [resolveAux] at h
    cases hf : findConsume i avail with
    | none => rw [hf] at h; cases h
    | some x =>
      simp only [hf] at h
      cases hr : resolveAux x.2 is with
      | none => rw [hr] at h; cases h
      | some l =>
        rw [hr] at h
        simp only [Option.map_some'] at h
        cases h
        obtain ⟨h1, h2⟩ := ih x.2 l hr
        obtain ⟨ht, pre, hpre⟩ := findConsume_split i avail x.1 x.2 hf
        constructor
        · rw [List.map_cons, h1, ht]
        · rw [hpre]
          exact List.Sublist.trans (List.Sublist.cons₂ x.1 h2)
            (List.sublist_append_right pre (x.1 :: x.2))

theorem memBlogCreate_id (repo : BlogRepositoryForMemory) (p : CreateBlog)
    (repo2 : BlogRepositoryForMemory) (e : BlogEntity)
    (h : memBlogCreate repo p = (repo2, RepoResult.ok e)) :
    e.id = Int.ofNat repo.store.length + 1 := by
  simp only [memBlogCreate] at h
  cases hr : resolve_tags repo.tags p.tags with
  | none =>
    rw [hr] at h
    have h2 := congrArg Prod.snd h
    simp at h2
  | some tags =>
    rw [hr] at h
    have h2 := congrArg Prod.snd h
    simp only at h2
    cases h2
    rfl

/-! ## Ordering facts about the tag table query -/

theorem sortTagsAsc_sorted (tags : List Tag) :
    (sortTagsAsc tags).Pairwise (fun a b => a.id ≤ b.id) :=
  List.sorted_insertionSort tagLe tags

theorem sortTagsAsc_perm (tags : List Tag) : (sortTagsAsc tags).Perm tags :=
  List.perm_insertionSort tagLe tags

/-! ## Claim theorems -/

/-- C1 counterexample: on the row sequence repeating post id 1 with null tag
fields, fold_entities traps (unwrap of a null tag field) instead of producing
the spec fold result, so the claim quantified over every sequence of flat
join rows is false. -/
theorem c1_counterexample :
    fold_entities
      [⟨1, "T", "T", none, none⟩, ⟨1, "T", "T", none, none⟩] ≠
    some (fold_spec [⟨1, "T", "T", none, none⟩, ⟨1, "T", "T", none, none⟩]) := by
  decide

/-- C1 (amended): for every sequence of flat join rows whose rows carry the
two tag fields both null or both non-null, and in which any row repeating an
already-seen post id has non-null tag fields, fold_entities produces exactly
the spec fold: one Post per distinct post id in first-seen order, the ids
being the first-occurrence deduplication of the row ids, and each tag
sequence built from the non-null tag fields of the rows of that id, in row
order. -/
theorem c1_fold_refines_spec (rows : List BlogWithTagFromRow)
    (hwf : wfFrom [] rows = true) :
    fold_entities rows = some (fold_spec rows) ∧
    (fold_spec rows).map (fun b => b.id) = firstDedup (rows.map (fun r => r.id)) :=
  ⟨fold_entities_eq_spec rows hwf, fold_spec_ids rows⟩

/-- C1 witness: the example rows of the claim satisfy the well-formedness
hypothesis and fold to the stated posts. -/
theorem c1_witness :
    wfFrom []
      [⟨1, "T", "T", some 1, some "tag1"⟩,
       ⟨1, "T", "T", some 2, some "tag2"⟩,
       ⟨2, "U", "U", some 1, some "tag1"⟩] = true ∧
    fold_entities
      [⟨1, "T", "T", some 1, some "tag1"⟩,
       ⟨1, "T", "T", some 2, some "tag2"⟩,
       ⟨2, "U", "U", some 1, some "tag1"⟩] =
      some [⟨1, "T", "T", [⟨1, "tag1"⟩, ⟨2, "tag2"⟩]⟩,
            ⟨2, "U", "U", [⟨1, "tag1"⟩]⟩] := by
  refine ⟨by decide, ?_⟩
  rw [(c1_fold_refines_spec _ (by decide)).1]
  decide

/-- C2: the multi-statement writes are not atomic.  Every statement executes
on the connection pool rather than inside the begun transaction, so when the
association insert of update fails (a foreign key violation on tag id 99),
the already-executed association delete stays committed: the operation
returns an error yet the stored association rows changed from one row to
none.  Likewise create leaves an orphan post row behind when its association
insert fails. -/
theorem c2_transaction_leak :
    dbUpdate ⟨[⟨1, "t", "b"⟩], [⟨1, "a"⟩], [(1, 1)], 2, 2⟩ 1 ⟨none, none, some [99]⟩ =
      (⟨[⟨1, "t", "b"⟩], [⟨1, "a"⟩], [], 2, 2⟩,
       RepoResult.err (RepositoryError.Unexpected "foreign key violation")) ∧
    (⟨[⟨1, "t", "b"⟩], [⟨1, "a"⟩], [(1, 1)], 2, 2⟩ : DbState).blog_tags = [(1, 1)] ∧
    (⟨[⟨1, "t", "b"⟩], [⟨1, "a"⟩], [], 2, 2⟩ : DbState).blog_tags = [] ∧
    dbCreate emptyDb ⟨"x", "y", [99]⟩ =
      (⟨[⟨1, "x", "y"⟩], [], [], 2, 1⟩,
       RepoResult.err (RepositoryError.Unexpected "foreign key violation")) ∧
    emptyDb.blogs = [] ∧ (⟨[⟨1, "x", "y"⟩], [], [], 2, 1⟩ : DbState).blogs ≠ [] := by
  refine ⟨by decide, rfl, rfl, by decide, rfl, by decide⟩

/-- C3: the persistent delete operations never return NotFound: deleting a
nonexistent post id or tag id succeeds, because both deletes are execute
statements whose zero-affected-rows outcome is a success and the RowNotFound
mapping in the source is dead code.  The in-memory deletes, and find and
update in both implementations, do return NotFound, and all on an empty
store returns an empty sequence. -/
theorem c3_notfound_behaviour :
    dbDelete emptyDb 1 = (emptyDb, RepoResult.ok ()) ∧
    dbTagDelete emptyDb 1 = (emptyDb, RepoResult.ok ()) ∧
    memBlogDelete ⟨[], []⟩ 1 = (⟨[], []⟩, RepoResult.err (RepositoryError.NotFound 1)) ∧
    memTagDelete [] 1 = ([], RepoResult.err (RepositoryError.NotFound 1)) ∧
    dbFind emptyDb 1 = RepoResult.err (RepositoryError.NotFound 1) ∧
    dbUpdate emptyDb 1 ⟨none, none, none⟩ =
      (emptyDb, RepoResult.err (RepositoryError.NotFound 1)) ∧
    memBlogFind ⟨[], []⟩ 1 = RepoResult.err (RepositoryError.NotFound 1) ∧
    memBlogUpdate ⟨[], []⟩ 1 ⟨none, none, none⟩ =
      (⟨[], []⟩, RepoResult.err (RepositoryError.NotFound 1)) ∧
    dbAll emptyDb = RepoResult.ok [] ∧
    dbTagAll emptyDb = RepoResult.ok [] ∧
    memBlogAllPossible ⟨[], []⟩ [] ∧
    memTagAllPossible [] [] := by
  refine ⟨by decide, by decide, by decide, by decide, by decide, by decide, by decide,
    by decide, by decide, by decide, List.Perm.refl _, List.Perm.refl _⟩

/-- C4: when the tag store already holds exactly one tag with name n, the
persistent create fails with Duplicate carrying that tag id and leaves the
store unchanged, so exactly one tag with name n remains; the in-memory
create instead returns the stored tag with that name and leaves the store
unchanged. -/
theorem c4_tag_name_uniqueness (st : DbState) (n : String) (t : Tag)
    (store : List (Int × Tag)) (k : Int) (tm : Tag)
    (hdb : st.tags.find? (fun x => x.name == n) = some t)
    (hcount : (st.tags.filter (fun x => x.name == n)).length = 1)
    (hmem : store.find? (fun p => p.2.name == n) = some (k, tm)) :
    dbTagCreate st n = (st, RepoResult.err (RepositoryError.Duplicate t.id)) ∧
    ((dbTagCreate st n).1.tags.filter (fun x => x.name == n)).length = 1 ∧
    memTagCreate store n = (store, RepoResult.ok tm) := by
  have h1 : dbTagCreate st n = (st, RepoResult.err (RepositoryError.Duplicate t.id)) := by
    simp [dbTagCreate, hdb]
  refine ⟨h1, ?_, ?_⟩
  · rw [h1]
    exact hcount
  · simp [memTagCreate, hmem]

/-- C4 witness: a store holding exactly the tag (1, a) rejects a second
create of name a in the persistent implementation and returns the stored tag
in the in-memory implementation. -/
theorem c4_witness :
    (⟨[], [⟨1, "a"⟩], [], 1, 2⟩ : DbState).tags.find? (fun x => x.name == "a") =
      some ⟨1, "a"⟩ ∧
    dbTagCreate ⟨[], [⟨1, "a"⟩], [], 1, 2⟩ "a" =
      (⟨[], [⟨1, "a"⟩], [], 1, 2⟩, RepoResult.err (RepositoryError.Duplicate 1)) ∧
    memTagCreate [(1, ⟨1, "a"⟩)] "a" = ([(1, ⟨1, "a"⟩)], RepoResult.ok ⟨1, "a"⟩) := by
  refine ⟨by decide, ?_, ?_⟩
  · exact (c4_tag_name_uniqueness ⟨[], [⟨1, "a"⟩], [], 1, 2⟩ "a" ⟨1, "a"⟩
      [(1, ⟨1, "a"⟩)] 1 ⟨1, "a"⟩ (by decide) (by decide) (by decide)).1
  · exact (c4_tag_name_uniqueness ⟨[], [⟨1, "a"⟩], [], 1, 2⟩ "a" ⟨1, "a"⟩
      [(1, ⟨1, "a"⟩)] 1 ⟨1, "a"⟩ (by decide) (by decide) (by decide)).2.2

/-- C5 counterexample: fold_entities is not total, and a second row for an
already-accumulated post id with both tag fields null is not skipped: the
fold traps on it (both at the whole-fold level and at the single step). -/
theorem c5_counterexample :
    fold_entities [⟨7, "x", "x", none, none⟩, ⟨7, "x", "x", none, none⟩] = none ∧
    foldStep [⟨7, "x", "x", []⟩] ⟨7, "x", "x", none, none⟩ = none ∧
    foldStep [⟨7, "x", "x", []⟩] ⟨7, "x", "x", none, none⟩ ≠
      some [⟨7, "x", "x", []⟩] := by
  refine ⟨by decide, by decide, by decide⟩

/-- C5 (amended): on a row whose post id matches an already-accumulated
entry, the fold unconditionally builds a Tag from the two tag fields,
appending it to the first matching entry when both are non-null and trapping
when either is null; the both-null skip exists only for a row that opens a
new entry. -/
theorem c5_matched_step (accum : List BlogEntity) (r : BlogWithTagFromRow)
    (h : hasId accum r.id = true) :
    (∀ t, tagOfRow r = some t →
      foldStep accum r = some (attachFirst accum r.id t)) ∧
    (tagOfRow r = none → foldStep accum r = none) := by
  constructor
  · intro t ht
    rw [foldStep_matched accum r h, ht]
    rfl
  · intro ht
    rw [foldStep_matched accum r h, ht]
    rfl

/-- C5 witness: a matched row with non-null tag fields appends its tag to
the matching entry. -/
theorem c5_witness :
    hasId [⟨7, "x", "x", []⟩] (7 : Int) = true ∧
    foldStep [⟨7, "x", "x", []⟩] ⟨7, "x", "x", some 1, some "a"⟩ =
      some (attachFirst [⟨7, "x", "x", []⟩] 7 ⟨1, "a"⟩) :=
  ⟨by decide,
   (c5_matched_step [⟨7, "x", "x", []⟩] ⟨7, "x", "x", some 1, some "a"⟩
     (by decide)).1 ⟨1, "a"⟩ (by decide)⟩

/-- C6 counterexample: the in-memory all has no ordering guarantee.  After
creating two posts (a reachable store), returning the stored entities in the
iteration order that lists post 1 before post 2 is a possible output of the
unordered map, and it is not ordered by descending id, so the claim as
stated for both implementations is false. -/
theorem c6_counterexample :
    memBlogCreate ⟨[], []⟩ ⟨"a", "a", []⟩ =
      (⟨[], [(1, ⟨1, "a", "a", []⟩)]⟩, RepoResult.ok ⟨1, "a", "a", []⟩) ∧
    memBlogCreate ⟨[], [(1, ⟨1, "a", "a", []⟩)]⟩ ⟨"b", "b", []⟩ =
      (⟨[], [(1, ⟨1, "a", "a", []⟩), (2, ⟨2, "b", "b", []⟩)]⟩,
       RepoResult.ok ⟨2, "b", "b", []⟩) ∧
    memBlogAllPossible ⟨[], [(1, ⟨1, "a", "a", []⟩), (2, ⟨2, "b", "b", []⟩)]⟩
      [⟨1, "a", "a", []⟩, ⟨2, "b", "b", []⟩] ∧
    ¬ ((([⟨1, "a", "a", []⟩, ⟨2, "b", "b", []⟩] : List BlogEntity).map
        (fun b => b.id)).Pairwise (fun a b => b < a)) := by
  refine ⟨by decide, by decide, List.Perm.refl _, by decide⟩

/-- C6 (amended): the persistent all returns the posts hydrated by the fold
algorithm over the descending-ordered join rows: under the primary key and
foreign key invariants of the schema it equals the spec fold of the ordered
query, produces exactly one post per stored post row, with the id sequence
equal to the descending sort of the stored ids, hence strictly descending;
the in-memory all merely returns the stored hydrated entities in some
unspecified map iteration order (every possible output is a permutation of
the stored entities). -/
theorem c6_all_ordering (st : DbState)
    (hnd : (st.blogs.map (fun b => b.id)).Nodup)
    (hfk : ∀ p ∈ st.blog_tags, (st.tags.find? (fun t => t.id == p.2)).isSome = true) :
    dbAll st = RepoResult.ok (fold_spec (allQuery st)) ∧
    (fold_spec (allQuery st)).map (fun b => b.id) =
      (sortBlogsDesc st.blogs).map (fun b => b.id) ∧
    ((fold_spec (allQuery st)).map (fun b => b.id)).Pairwise (fun a b => b < a) ∧
    (∀ (repo : BlogRepositoryForMemory) (out : List BlogEntity),
      memBlogAllPossible repo out → out.Perm (hmValues repo.store)) :=
  ⟨(dbAll_correct st hnd hfk).1, (dbAll_correct st hnd hfk).2.1,
   (dbAll_correct st hnd hfk).2.2, fun _ _ h => h⟩

/-- C6 witness: on a database with posts 1 and 2 where only post 1 carries
tag 1, all returns post 2 first, then post 1 hydrated with its tag. -/
theorem c6_witness :
    ((⟨[⟨1, "t1", "b1"⟩, ⟨2, "t2", "b2"⟩], [⟨1, "a"⟩], [(1, 1)], 3, 2⟩ : DbState).blogs.map
      (fun b => b.id)).Nodup ∧
    dbAll ⟨[⟨1, "t1", "b1"⟩, ⟨2, "t2", "b2"⟩], [⟨1, "a"⟩], [(1, 1)], 3, 2⟩ =
      RepoResult.ok [⟨2, "t2", "b2", []⟩, ⟨1, "t1", "b1", [⟨1, "a"⟩]⟩] := by
  refine ⟨by decide, ?_⟩
  rw [(c6_all_ordering ⟨[⟨1, "t1", "b1"⟩, ⟨2, "t2", "b2"⟩], [⟨1, "a"⟩], [(1, 1)], 3, 2⟩
    (by decide) (by decide)).1]
  decide

/-- C7 counterexample: the in-memory tag all has no ordering guarantee.
After creating tags a and b (a reachable store), the iteration order listing
tag 2 before tag 1 is a possible output of the unordered map and it is not
ascending, so the claim as stated for both implementations is false. -/
theorem c7_counterexample :
    memTagCreate [] "a" = ([(1, ⟨1, "a"⟩)], RepoResult.ok ⟨1, "a"⟩) ∧
    memTagCreate [(1, ⟨1, "a"⟩)] "b" =
      ([(1, ⟨1, "a"⟩), (2, ⟨2, "b"⟩)], RepoResult.ok ⟨2, "b"⟩) ∧
    memTagAllPossible [(1, ⟨1, "a"⟩), (2, ⟨2, "b"⟩)] [⟨2, "b"⟩, ⟨1, "a"⟩] ∧
    ¬ (([⟨2, "b"⟩, ⟨1, "a"⟩] : List Tag).Pairwise (fun a b => a.id ≤ b.id)) := by
  refine ⟨by decide, by decide, List.Perm.swap _ _ _, by decide⟩

/-- C7 (amended): the persistent tag all never fails and returns the stored
tags sorted by ascending identifier (a sorted permutation of the tag table);
the in-memory tag all returns the stored tags in some unspecified map
iteration order (every possible output is a permutation of the stored
tags), with no ordering guarantee. -/
theorem c7_tag_all_ordering (st : DbState) :
    dbTagAll st = RepoResult.ok (sortTagsAsc st.tags) ∧
    (sortTagsAsc st.tags).Pairwise (fun a b => a.id ≤ b.id) ∧
    (sortTagsAsc st.tags).Perm st.tags ∧
    (∀ (store : List (Int × Tag)) (out : List Tag),
      memTagAllPossible store out → out.Perm (hmValues store)) :=
  ⟨rfl, sortTagsAsc_sorted st.tags, sortTagsAsc_perm st.tags, fun _ _ h => h⟩

/-- C7 witness: a tag table stored as (2, b), (1, a) is returned sorted
ascending by the persistent all, and the singleton in-memory output is a
permutation of the singleton store. -/
theorem c7_witness :
    dbTagAll ⟨[], [⟨2, "b"⟩, ⟨1, "a"⟩], [], 1, 3⟩ =
      RepoResult.ok [⟨1, "a"⟩, ⟨2, "b"⟩] ∧
    ([⟨1, "a"⟩] : List Tag).Perm (hmValues [(1, ⟨1, "a"⟩)]) := by
  refine ⟨?_, ?_⟩
  · rw [(c7_tag_all_ordering ⟨[], [⟨2, "b"⟩, ⟨1, "a"⟩], [], 1, 3⟩).1]
    decide
  · exact (c7_tag_all_ordering emptyDb).2.2.2 [(1, ⟨1, "a"⟩)] [⟨1, "a"⟩]
      (List.Perm.refl _)

/-- C8: updating an existing post with the all-omitted payload leaves the
store byte-for-byte unchanged in both implementations: the persistent update
rewrites the post row with its own title and body, touches no association
row, and returns the hydrated post, the whole database state being exactly
the initial one; the in-memory update re-inserts the identical entity under
the same key. -/
theorem c8_update_noop (st : DbState) (b : BlogFromRow)
    (hnd : (st.blogs.map (fun x => x.id)).Nodup) (hb : b ∈ st.blogs)
    (hfk : ∀ p ∈ st.blog_tags, (st.tags.find? (fun t => t.id == p.2)).isSome = true)
    (repo : BlogRepositoryForMemory) (i : Int) (blog : BlogEntity)
    (hnd2 : (repo.store.map (fun p => p.1)).Nodup)
    (hget : hmGet repo.store i = some blog) (hid : blog.id = i) :
    (dbUpdate st b.id ⟨none, none, none⟩).1 = st ∧
    (dbUpdate st b.id ⟨none, none, none⟩).2 =
      RepoResult.ok ⟨b.id, b.title, b.body, (rowsForBlog st b).filterMap tagOfRow⟩ ∧
    memBlogUpdate repo i ⟨none, none, none⟩ = (repo, RepoResult.ok blog) := by
  refine ⟨?_, ?_, memBlogUpdate_noop repo i blog hnd2 hget hid⟩
  · rw [dbUpdate_noop st b hnd hb hfk]
  · rw [dbUpdate_noop st b hnd hb hfk]

/-- C8 witness: the no-op update on a concrete database with post 1 attached
to tag 1, and on a concrete in-memory store, changes nothing. -/
theorem c8_witness :
    (dbUpdate ⟨[⟨1, "t1", "b1"⟩], [⟨1, "a"⟩], [(1, 1)], 2, 2⟩ 1 ⟨none, none, none⟩).1 =
      ⟨[⟨1, "t1", "b1"⟩], [⟨1, "a"⟩], [(1, 1)], 2, 2⟩ ∧
    memBlogUpdate ⟨[], [(1, ⟨1, "x", "y", []⟩)]⟩ 1 ⟨none, none, none⟩ =
      (⟨[], [(1, ⟨1, "x", "y", []⟩)]⟩, RepoResult.ok ⟨1, "x", "y", []⟩) := by
  refine ⟨?_, ?_⟩
  · exact (c8_update_noop ⟨[⟨1, "t1", "b1"⟩], [⟨1, "a"⟩], [(1, 1)], 2, 2⟩ ⟨1, "t1", "b1"⟩
      (by decide) (by decide) (by decide)
      ⟨[], [(1, ⟨1, "x", "y", []⟩)]⟩ 1 ⟨1, "x", "y", []⟩
      (by decide) (by decide) (by decide)).1
  · exact (c8_update_noop ⟨[⟨1, "t1", "b1"⟩], [⟨1, "a"⟩], [(1, 1)], 2, 2⟩ ⟨1, "t1", "b1"⟩
      (by decide) (by decide) (by decide)
      ⟨[], [(1, ⟨1, "x", "y", []⟩)]⟩ 1 ⟨1, "x", "y", []⟩
      (by decide) (by decide) (by decide)).2.2

/-- C9: resolve_tags consumes one shared iterator over the stored tag list,
so a successful resolution maps the requested ids in order onto a sublist of
the stored tags (the ids must occur as a subsequence of the stored order);
on ids that all exist but are out of stored order (2 then 1 against stored
1, 2) the lookup traps, create traps with it leaving the store untouched,
and a repeated id (1, 1 against stored 1) traps as well. -/
theorem c9_resolve_subsequence :
    (∀ (tags : List Tag) (ids : List Int) (out : List Tag),
      resolve_tags tags ids = some out →
      out.map (fun t => t.id) = ids ∧ out.Sublist tags) ∧
    resolve_tags [⟨1, "a"⟩, ⟨2, "b"⟩] [2, 1] = none ∧
    ((2 : Int) ∈ ([⟨1, "a"⟩, ⟨2, "b"⟩] : List Tag).map (fun t => t.id) ∧
     (1 : Int) ∈ ([⟨1, "a"⟩, ⟨2, "b"⟩] : List Tag).map (fun t => t.id)) ∧
    memBlogCreate ⟨[⟨1, "a"⟩, ⟨2, "b"⟩], []⟩ ⟨"x", "y", [2, 1]⟩ =
      (⟨[⟨1, "a"⟩, ⟨2, "b"⟩], []⟩, RepoResult.trap) ∧
    resolve_tags [⟨1, "a"⟩] [1, 1] = none :=
  ⟨fun tags ids out h => resolveAux_spec ids tags out h,
   by decide, ⟨by decide, by decide⟩, by decide, by decide⟩

/-- C9 witness: resolving ids 1, 2 against stored tags 1, 2 succeeds and the
result is those ids in order on a sublist of the store. -/
theorem c9_witness :
    ([⟨1, "a"⟩, ⟨2, "b"⟩] : List Tag).map (fun t => t.id) = [1, 2] ∧
    ([⟨1, "a"⟩, ⟨2, "b"⟩] : List Tag).Sublist [⟨1, "a"⟩, ⟨2, "b"⟩] :=
  c9_resolve_subsequence.1 [⟨1, "a"⟩, ⟨2, "b"⟩] [1, 2] [⟨1, "a"⟩, ⟨2, "b"⟩] (by decide)

/-- C10: the in-memory create assigns the id store size plus one, so ids are
reused after a delete: after create, create, delete 1, the next create gets
id 2, which still identifies the stored second post, and silently overwrites
it in place: distinctness of stored records is not preserved. -/
theorem c10_mem_id_reuse :
    (∀ (repo : BlogRepositoryForMemory) (p : CreateBlog)
      (repo2 : BlogRepositoryForMemory) (e : BlogEntity),
      memBlogCreate repo p = (repo2, RepoResult.ok e) →
      e.id = Int.ofNat repo.store.length + 1) ∧
    memBlogCreate ⟨[], []⟩ ⟨"a", "a", []⟩ =
      (⟨[], [(1, ⟨1, "a", "a", []⟩)]⟩, RepoResult.ok ⟨1, "a", "a", []⟩) ∧
    memBlogCreate ⟨[], [(1, ⟨1, "a", "a", []⟩)]⟩ ⟨"b", "b", []⟩ =
      (⟨[], [(1, ⟨1, "a", "a", []⟩), (2, ⟨2, "b", "b", []⟩)]⟩,
       RepoResult.ok ⟨2, "b", "b", []⟩) ∧
    memBlogDelete ⟨[], [(1, ⟨1, "a", "a", []⟩), (2, ⟨2, "b", "b", []⟩)]⟩ 1 =
      (⟨[], [(2, ⟨2, "b", "b", []⟩)]⟩, RepoResult.ok ()) ∧
    memBlogCreate ⟨[], [(2, ⟨2, "b", "b", []⟩)]⟩ ⟨"c", "c", []⟩ =
      (⟨[], [(2, ⟨2, "c", "c", []⟩)]⟩, RepoResult.ok ⟨2, "c", "c", []⟩) ∧
    (⟨2, "c", "c", []⟩ : BlogEntity).id = (⟨2, "b", "b", []⟩ : BlogEntity).id ∧
    (⟨2, "c", "c", []⟩ : BlogEntity) ≠ ⟨2, "b", "b", []⟩ :=
  ⟨fun repo p repo2 e h => memBlogCreate_id repo p repo2 e h,
   by decide, by decide, by decide, by decide, rfl, by decide⟩

/-- C10 witness: the first create on the empty store returns id 1, the size
plus one. -/
theorem c10_witness :
    (⟨1, "a", "a", []⟩ : BlogEntity).id =
      Int.ofNat (([] : List (Int × BlogEntity)).length) + 1 :=
  c10_mem_id_reuse.1 ⟨[], []⟩ ⟨"a", "a", []⟩ ⟨[], [(1, ⟨1, "a", "a", []⟩)]⟩
    ⟨1, "a", "a", []⟩ (by decide)

end NextBlog
